import Mathlib

/-!
Verification of the FIFO portfolio / P&L ledger engine
(`src/portfolio/portfolio.service.ts`, `portfolio-storage.service.ts`,
`portfolio-query.service.ts`, entities and `common/utils/decimal.util.ts`).

Modelling conventions:
* `Decimal` values (decimal.js, configured in `decimal.util.ts` with 20
  significant digits and `ROUND_HALF_UP`, i.e. half away from zero) are
  modelled as exact rationals `ℚ`; plus / minus / times are exact in the
  source for the magnitudes at play, and every claim about them is stated
  in exact arithmetic, matching the spec's "exact decimal arithmetic".
* JS `Map`s are modelled as association lists preserving insertion order
  (`Map.set` keeps the position of an existing key, appends a new one).
* `Date` values are modelled as integers, UUIDs as caller-supplied strings
  (`addTrade` receives the generated id and the ingestion instant as extra
  parameters, making the nondeterminism explicit).
* A thrown `BadRequestException` is modelled with `Except`: the function
  returns the store as mutated up to the throw point together with the
  error, exactly as the exception propagates out of the service while the
  storage singleton keeps every mutation already performed.
-/

namespace Portfolio

/-- Rounding half away from zero to an integer, the `ROUND_HALF_UP` mode
decimal.js is configured with in `decimal.util.ts`. -/
def roundAway (x : ℚ) : ℤ :=
  if x < 0 then -⌊-x + 1/2⌋ else ⌊x + 1/2⌋

/-- Rounding to `n` decimal places, half away from zero: models
`Decimal.toDecimalPlaces(n)` under the global `ROUND_HALF_UP` setting and
`Number.toFixed(n)` at the query response boundary. -/
def roundDp (n : ℕ) (x : ℚ) : ℚ :=
  (roundAway (x * 10 ^ n) : ℚ) / 10 ^ n

/-- Model of `toNumber` from `decimal.util.ts`: conversion of a Decimal for JSON
serialization, rounded to 8 decimal places. -/
def toNumber8 (x : ℚ) : ℚ :=
  roundDp 8 x

/-- Model of `TradeSide` from `entities/trade.entity.ts`. -/
inductive TradeSide where
  | buy
  | sell
deriving DecidableEq

/-- Model of `Trade` from `entities/trade.entity.ts` (the optional `userId` is never
set by the engine and is omitted). -/
structure Trade where
  id : String
  tradeId : String
  orderId : String
  symbol : String
  side : TradeSide
  price : ℚ
  quantity : ℚ
  executionTimestamp : ℤ
  createdAt : ℤ
deriving DecidableEq

/-- Model of `CreateTradeDto` from `dto/create-trade.dto.ts`; the execution
timestamp is modelled as the instant it parses to. -/
structure CreateTradeDto where
  tradeId : String
  orderId : String
  symbol : String
  side : TradeSide
  price : ℚ
  quantity : ℚ
  executionTimestamp : ℤ
deriving DecidableEq

/-- Model of `FifoLot` from `entities/position.entity.ts`. -/
structure FifoLot where
  quantity : ℚ
  price : ℚ
  tradeId : String
deriving DecidableEq

/-- Model of `Position` from `entities/position.entity.ts`. -/
structure Position where
  symbol : String
  fifoQueue : List FifoLot
  totalQuantity : ℚ
  averageEntryPrice : ℚ
deriving DecidableEq

/-- Model of `RealizedPnlRecord` from `entities/realized-pnl-record.entity.ts`. -/
structure RealizedPnlRecord where
  symbol : String
  quantity : ℚ
  buyPrice : ℚ
  sellPrice : ℚ
  pnl : ℚ
  timestamp : ℤ
deriving DecidableEq

/-- Model of `RealizedPnlAggregate` from `entities/realized-pnl-record.entity.ts`. -/
structure RealizedPnlAggregate where
  totalPnl : ℚ
  totalQuantity : ℚ
deriving DecidableEq

/-- Model of `Map.get` on an insertion-ordered association list. -/
def lookupA {α : Type} : List (String × α) → String → Option α
  | [], _ => none
  | (k, v) :: t, s => if k = s then some v else lookupA t s

/-- Model of `Map.set` on an insertion-ordered association list: replaces the value
in place when the key exists, appends otherwise. -/
def setA {α : Type} : List (String × α) → String → α → List (String × α)
  | [], s, v => [(s, v)]
  | (k, w) :: t, s, v => if k = s then (s, v) :: t else (k, w) :: setA t s v

/-- The state owned by `PortfolioStorageService`: trade log, tradeId
idempotency index, per-symbol positions, per-symbol realized P&L record
logs, and the per-symbol aggregate cache. -/
structure Store where
  trades : List Trade
  tradeIdIndex : List (String × Trade)
  positions : List (String × Position)
  pnlRecords : List (String × List RealizedPnlRecord)
  aggregates : List (String × RealizedPnlAggregate)
deriving DecidableEq

/-- The freshly constructed `PortfolioStorageService` state. -/
def emptyStore : Store :=
  { trades := [], tradeIdIndex := [], positions := [], pnlRecords := [], aggregates := [] }

/-- Model of `saveTrade` (`portfolio-storage.service.ts:21`): appends to the trade
log and indexes by external tradeId. -/
def saveTrade (store : Store) (trade : Trade) : Store :=
  { store with
    trades := store.trades ++ [trade]
    tradeIdIndex := setA store.tradeIdIndex trade.tradeId trade }

/-- Model of `findTradeByTradeId` (`portfolio-storage.service.ts:28`). -/
def findTradeByTradeId (store : Store) (tradeId : String) : Option Trade :=
  lookupA store.tradeIdIndex tradeId

/-- Model of `getPosition` (`portfolio-storage.service.ts:43`). -/
def getPosition (store : Store) (symbol : String) : Option Position :=
  lookupA store.positions symbol

/-- Model of `savePosition` (`portfolio-storage.service.ts:48`): keyed by the
position's own symbol. -/
def savePosition (store : Store) (position : Position) : Store :=
  { store with positions := setA store.positions position.symbol position }

/-- Model of `getAllPositions` (`portfolio-storage.service.ts:52`). -/
def getAllPositions (store : Store) : List Position :=
  store.positions.map Prod.snd

/-- Model of `deletePosition` (`portfolio-storage.service.ts:56`). Present in the
storage service but never called by any engine code path. -/
def deletePosition (store : Store) (symbol : String) : Store :=
  { store with positions := store.positions.filter (fun e => !(e.1 = symbol)) }

/-- Model of `savePnlRecord` (`portfolio-storage.service.ts:61`): appends the record
to its symbol's log and in the same operation adds `record.pnl` and
`record.quantity` to that symbol's aggregate, creating it when absent. -/
def savePnlRecord (store : Store) (record : RealizedPnlRecord) : Store :=
  let records := (lookupA store.pnlRecords record.symbol).getD []
  let aggregate := (lookupA store.aggregates record.symbol).getD ⟨0, 0⟩
  { store with
    pnlRecords := setA store.pnlRecords record.symbol (records ++ [record])
    aggregates := setA store.aggregates record.symbol
      ⟨aggregate.totalPnl + record.pnl, aggregate.totalQuantity + record.quantity⟩ }

/-- Model of `getPnlRecordsBySymbol` (`portfolio-storage.service.ts:89`). -/
def getPnlRecordsBySymbol (store : Store) (symbol : String) : List RealizedPnlRecord :=
  (lookupA store.pnlRecords symbol).getD []

/-- The `Trade` object built inside `addTrade`
(`portfolio.service.ts:30-40`); `genId` is the generated UUID and `now`
the ingestion instant. -/
def mkTrade (dto : CreateTradeDto) (genId : String) (now : ℤ) : Trade :=
  { id := genId
    tradeId := dto.tradeId
    orderId := dto.orderId
    symbol := dto.symbol
    side := dto.side
    price := dto.price
    quantity := dto.quantity
    executionTimestamp := dto.executionTimestamp
    createdAt := now }

/-- Model of `handleBuy` (`portfolio.service.ts:74-87`): push the new lot, add the
quantity to the cached total, recompute the average entry price as the
reduce over all lots divided by the new total. -/
def handleBuy (position : Position) (trade : Trade) : Position :=
  let fifoQueue := position.fifoQueue ++ [⟨trade.quantity, trade.price, trade.id⟩]
  let totalQuantity := position.totalQuantity + trade.quantity
  let totalCostAcc := fifoQueue.foldl (fun sum lot => sum + lot.quantity * lot.price) 0
  { position with
    fifoQueue := fifoQueue
    totalQuantity := totalQuantity
    averageEntryPrice := totalCostAcc / totalQuantity }

/-- The engine-level failure of `handleSell` (`BadRequestException` with
the insufficient-quantity message, `portfolio.service.ts:95-97`). -/
inductive TradeError where
  | insufficientBalance
deriving DecidableEq

/-- The `while` loop of `handleSell` (`portfolio.service.ts:100-135`):
consumes lots from the head of the FIFO queue while quantity remains,
persisting one realized P&L record per touched lot through
`savePnlRecord`; returns the mutated store and the remaining queue. -/
def sellLoop (symbol : String) (sellPrice : ℚ) (ts : ℤ) :
    Store → List FifoLot → ℚ → Store × List FifoLot
  | store, [], _ => (store, [])
  | store, lot :: rest, remaining =>
    if 0 < remaining then
      if lot.quantity ≤ remaining then
        let store' := savePnlRecord store
          ⟨symbol, lot.quantity, lot.price, sellPrice,
            (sellPrice - lot.price) * lot.quantity, ts⟩
        sellLoop symbol sellPrice ts store' rest (remaining - lot.quantity)
      else
        let store' := savePnlRecord store
          ⟨symbol, remaining, lot.price, sellPrice,
            (sellPrice - lot.price) * remaining, ts⟩
        (store', ⟨lot.quantity - remaining, lot.price, lot.tradeId⟩ :: rest)
    else
      (store, lot :: rest)

/-- Model of `handleSell` (`portfolio.service.ts:91-149`): throws
insufficient-balance when the cached total is below the sell quantity
(before any mutation), otherwise runs the FIFO loop, subtracts the sold
quantity from the cached total and recomputes the average entry price
(zero when nothing remains). -/
def handleSell (store : Store) (position : Position) (trade : Trade) :
    Except TradeError (Store × Position) :=
  if position.totalQuantity < trade.quantity then
    .error .insufficientBalance
  else
    let out := sellLoop trade.symbol trade.price trade.executionTimestamp
      store position.fifoQueue trade.quantity
    let totalQuantity := position.totalQuantity - trade.quantity
    let averageEntryPrice :=
      if 0 < totalQuantity then
        (out.2.foldl (fun sum lot => sum + lot.quantity * lot.price) 0) / totalQuantity
      else 0
    .ok (out.1,
      { position with
        fifoQueue := out.2
        totalQuantity := totalQuantity
        averageEntryPrice := averageEntryPrice })

/-- Model of `updatePosition` (`portfolio.service.ts:51-71`): fetch or create the
symbol's position, dispatch on side, persist the result with
`savePosition`. A `handleSell` throw propagates before `savePosition`. -/
def updatePosition (store : Store) (trade : Trade) : Except TradeError Store :=
  let position := (getPosition store trade.symbol).getD
    ⟨trade.symbol, [], 0, 0⟩
  match trade.side with
  | .buy => .ok (savePosition store (handleBuy position trade))
  | .sell =>
    match handleSell store position trade with
    | .ok out => .ok (savePosition out.1 out.2)
    | .error e => .error e

/-- Model of `addTrade` (`portfolio.service.ts:24-46`): idempotency lookup, then
construct and persist the trade, then update the position. The returned
store is the storage state after the call, including the case where
`handleSell` throws after `saveTrade` has already run. -/
def addTrade (store : Store) (dto : CreateTradeDto) (genId : String) (now : ℤ) :
    Store × Except TradeError Trade :=
  match findTradeByTradeId store dto.tradeId with
  | some existing => (store, .ok existing)
  | none =>
    let trade := mkTrade dto genId now
    let store₁ := saveTrade store trade
    match updatePosition store₁ trade with
    | .ok store₂ => (store₂, .ok trade)
    | .error e => (store₁, .error e)

/-- The validation `CreateTradeDto` passes before reaching the engine
(`@IsPositive` on price and quantity in `dto/create-trade.dto.ts`). -/
def validDto (dto : CreateTradeDto) : Prop :=
  0 < dto.price ∧ 0 < dto.quantity

instance (dto : CreateTradeDto) : Decidable (validDto dto) := by
  unfold validDto; infer_instance

/-- The store states reachable by any sequence of `addTrade` calls on
validated inputs, starting from the fresh storage service. -/
inductive Reachable : Store → Prop
  | init : Reachable emptyStore
  | step {s : Store} {dto : CreateTradeDto} (genId : String) (now : ℤ) :
      Reachable s → validDto dto → Reachable (addTrade s dto genId now).1

/-- Modelled from the spec: the Market Price Oracle.
`market-price.service.ts` itself is not under `src/` (only its module,
its tests and its callers are); spec §6 specifies
`getPrice(symbol) -> decimal | absent`, so an oracle state is a partial
price map. -/
def Oracle : Type := String → Option ℚ

/-- Modelled from the spec: the oracle's reachable states hold only
positive prices — `updatePrice`/`updatePrices` reject zero and negative
prices (per `update-price.dto.ts` `@IsPositive` and the service tests
expecting a `Price must be positive` throw). -/
def OracleOk (oracle : Oracle) : Prop :=
  ∀ s p, oracle s = some p → 0 < p

/-- The `currentPrice` computation shared by `getPortfolio` and `getPnl`
(`portfolio-query.service.ts:30-31, 81-82`):
`marketPrice ? toDecimal(marketPrice) : pos.averageEntryPrice`. JS
truthiness makes a present price of exactly `0` fall back as well, so the
guard is modelled as `p = 0`. -/
def currentPriceOf (oracle : Oracle) (pos : Position) : ℚ :=
  match oracle pos.symbol with
  | some p => if p = 0 then pos.averageEntryPrice else p
  | none => pos.averageEntryPrice

/-- One element of `PortfolioResponseDto.positions`
(`dto/portfolio-response.dto.ts`). -/
structure PositionPnl where
  symbol : String
  totalQuantity : ℚ
  averageEntryPrice : ℚ
  currentPrice : ℚ
  currentValue : ℚ
  unrealizedPnl : ℚ
deriving DecidableEq

/-- The exact per-position computation inside `getPortfolio`'s `map`
(`portfolio-query.service.ts:29-42`), before the `toNumber` serialization
of each field. -/
def positionEntry (oracle : Oracle) (pos : Position) : PositionPnl :=
  let currentPrice := currentPriceOf oracle pos
  { symbol := pos.symbol
    totalQuantity := pos.totalQuantity
    averageEntryPrice := pos.averageEntryPrice
    currentPrice := currentPrice
    currentValue := currentPrice * pos.totalQuantity
    unrealizedPnl := (currentPrice - pos.averageEntryPrice) * pos.totalQuantity }

/-- The serialized entry `getPortfolio` actually returns: every numeric
field of `positionEntry` passed through `toNumber`
(`portfolio-query.service.ts:35-42`). -/
def positionEntryDto (oracle : Oracle) (pos : Position) : PositionPnl :=
  let e := positionEntry oracle pos
  { symbol := e.symbol
    totalQuantity := toNumber8 e.totalQuantity
    averageEntryPrice := toNumber8 e.averageEntryPrice
    currentPrice := toNumber8 e.currentPrice
    currentValue := toNumber8 e.currentValue
    unrealizedPnl := toNumber8 e.unrealizedPnl }

/-- The optional symbol filter of the query methods
(`if (symbols && symbols.length > 0) ... filter(symbolSet.has ...)`). -/
def applyFilter {α : Type} (key : α → String) (filt : Option (List String))
    (l : List α) : List α :=
  match filt with
  | none => l
  | some ss => if ss.isEmpty then l else l.filter (fun a => ss.contains (key a))

/-- Model of `PortfolioResponseDto` (`dto/portfolio-response.dto.ts`). -/
structure PortfolioResponse where
  positions : List PositionPnl
  totalValue : ℚ
  totalUnrealizedPnl : ℚ
deriving DecidableEq

/-- The open positions `getPortfolio`/`getPnl` report on: all stored
positions, optionally symbol-filtered, then restricted to
`totalQuantity > 0` (`portfolio-query.service.ts:21-28, 71-79`). -/
def openPositions (store : Store) (filt : Option (List String)) : List Position :=
  (applyFilter Position.symbol filt (getAllPositions store)).filter
    (fun pos => decide (0 < pos.totalQuantity))

/-- Model of `getPortfolio` (`portfolio-query.service.ts:20-53`). -/
def getPortfolio (store : Store) (oracle : Oracle) (filt : Option (List String)) :
    PortfolioResponse :=
  let positionsWithPnl := (openPositions store filt).map (positionEntryDto oracle)
  let totalValue := (positionsWithPnl.map PositionPnl.currentValue).foldl
    (fun a b => a + b) 0
  let totalUnrealizedPnl := (positionsWithPnl.map PositionPnl.unrealizedPnl).foldl
    (fun a b => a + b) 0
  { positions := positionsWithPnl
    totalValue := roundDp 2 totalValue
    totalUnrealizedPnl := roundDp 2 totalUnrealizedPnl }

/-- One element of `PnlResponseDto.realizedPnl`. -/
structure RealizedEntry where
  symbol : String
  realizedPnl : ℚ
  closedQuantity : ℚ
deriving DecidableEq

/-- One element of `PnlResponseDto.unrealizedPnl`. -/
structure UnrealizedEntry where
  symbol : String
  unrealizedPnl : ℚ
  currentQuantity : ℚ
  averageEntryPrice : ℚ
  currentPrice : ℚ
deriving DecidableEq

/-- Model of `PnlResponseDto` (`dto/pnl-response.dto.ts`). -/
structure PnlResponse where
  realizedPnl : List RealizedEntry
  unrealizedPnl : List UnrealizedEntry
  totalRealizedPnl : ℚ
  totalUnrealizedPnl : ℚ
  netPnl : ℚ
deriving DecidableEq

/-- The realized side of `getPnl` (`portfolio-query.service.ts:58-68`):
one entry per aggregate cache entry, serialized with `toNumber`, then
optionally symbol-filtered. -/
def realizedEntries (store : Store) (filt : Option (List String)) :
    List RealizedEntry :=
  applyFilter RealizedEntry.symbol filt
    (store.aggregates.map (fun e =>
      ⟨e.1, toNumber8 e.2.totalPnl, toNumber8 e.2.totalQuantity⟩))

/-- The unrealized side of `getPnl` (`portfolio-query.service.ts:70-92`). -/
def unrealizedEntries (store : Store) (oracle : Oracle)
    (filt : Option (List String)) : List UnrealizedEntry :=
  (openPositions store filt).map (fun pos =>
    let currentPrice := currentPriceOf oracle pos
    ⟨pos.symbol, toNumber8 ((currentPrice - pos.averageEntryPrice) * pos.totalQuantity),
      toNumber8 pos.totalQuantity, toNumber8 pos.averageEntryPrice,
      toNumber8 currentPrice⟩)

/-- Model of `totalRealizedPnl` as summed in `getPnl` before its own rounding
(`portfolio-query.service.ts:94`). -/
def realizedTotal (store : Store) (filt : Option (List String)) : ℚ :=
  ((realizedEntries store filt).map RealizedEntry.realizedPnl).foldl
    (fun a b => a + b) 0

/-- Model of `totalUnrealizedPnl` as summed in `getPnl` before its own rounding
(`portfolio-query.service.ts:95`). -/
def unrealizedTotal (store : Store) (oracle : Oracle)
    (filt : Option (List String)) : ℚ :=
  ((unrealizedEntries store oracle filt).map UnrealizedEntry.unrealizedPnl).foldl
    (fun a b => a + b) 0

/-- Model of `getPnl` (`portfolio-query.service.ts:57-104`). Note the last line of
the source: `netPnl` is the 2-decimal rounding of the sum of the two
*unrounded* totals, while the two total fields are each rounded
independently. -/
def getPnl (store : Store) (oracle : Oracle) (filt : Option (List String)) :
    PnlResponse :=
  { realizedPnl := realizedEntries store filt
    unrealizedPnl := unrealizedEntries store oracle filt
    totalRealizedPnl := roundDp 2 (realizedTotal store filt)
    totalUnrealizedPnl := roundDp 2 (unrealizedTotal store oracle filt)
    netPnl := roundDp 2 (realizedTotal store filt + unrealizedTotal store oracle filt) }

/-! ## Specification-side measures

The sums the spec's invariants compare the cached fields against. -/

/-- Sum of the lot quantities of a FIFO queue. -/
def sumQ : List FifoLot → ℚ
  | [] => 0
  | lot :: t => lot.quantity + sumQ t

/-- Weighted cost of a FIFO queue: `Σ lot.quantity * lot.price`. -/
def totalCost : List FifoLot → ℚ
  | [] => 0
  | lot :: t => lot.quantity * lot.price + totalCost t

/-- Sum of the `pnl` fields of a record list. -/
def sumPnl : List RealizedPnlRecord → ℚ
  | [] => 0
  | r :: t => r.pnl + sumPnl t

/-- Sum of the `quantity` fields of a record list. -/
def sumRQty : List RealizedPnlRecord → ℚ
  | [] => 0
  | r :: t => r.quantity + sumRQty t

/-! ## Division sites

The two places the engine divides (`portfolio.service.ts:86` in
`handleBuy` and `portfolio.service.ts:145` in `handleSell`), instrumented
as the list of divisors a `addTrade` call feeds to the decimal division. -/

/-- Divisors used by `handleBuy`: the single division at
`portfolio.service.ts:86`, by the updated cached total. -/
def buyDivisors (position : Position) (trade : Trade) : List ℚ :=
  [position.totalQuantity + trade.quantity]

/-- Divisors used by an accepted `handleSell`: the division at
`portfolio.service.ts:145` runs only under the `greaterThan(0)` guard on
the updated total (`portfolio.service.ts:140`). -/
def sellDivisors (position : Position) (trade : Trade) : List ℚ :=
  if 0 < position.totalQuantity - trade.quantity then
    [position.totalQuantity - trade.quantity]
  else []

/-- All divisors evaluated during one `addTrade` call: none on the
idempotent early return, none on an insufficient-balance throw (the guard
precedes the loop and the recompute), otherwise the side's division
site. -/
def recordTradeDivisors (store : Store) (dto : CreateTradeDto)
    (genId : String) (now : ℤ) : List ℚ :=
  match findTradeByTradeId store dto.tradeId with
  | some _ => []
  | none =>
    let trade := mkTrade dto genId now
    let position := (getPosition store trade.symbol).getD ⟨trade.symbol, [], 0, 0⟩
    match dto.side with
    | .buy => buyDivisors position trade
    | .sell =>
      if position.totalQuantity < trade.quantity then []
      else sellDivisors position trade

/-! ## Concrete inputs used by the scenario theorems and witnesses -/

/-- A SELL input arriving while nothing is held (claim C1's failing input). -/
def c1Dto : CreateTradeDto := ⟨"t9", "o9", "BTC", .sell, 45000, 1, 5⟩

/-- First buy of the spec's scenario 3: 2 units at 40000. -/
def c2b1 : CreateTradeDto := ⟨"s1", "o1", "BTC", .buy, 40000, 2, 10⟩

/-- Second buy of the spec's scenario 3: 3 units at 42000. -/
def c2b2 : CreateTradeDto := ⟨"s2", "o2", "BTC", .buy, 42000, 3, 11⟩

/-- The sell of the spec's scenario 3: 4 units at 45000. -/
def c2s : CreateTradeDto := ⟨"s3", "o3", "BTC", .sell, 45000, 4, 12⟩

/-- The store after running scenario 3 from an empty store. -/
def c2Store : Store :=
  (addTrade (addTrade (addTrade emptyStore c2b1 "g1" 0).1 c2b2 "g2" 1).1 c2s "g3" 2).1

/-- A one-unit buy used to build small demonstration stores. -/
def demoBuy : CreateTradeDto := ⟨"t1", "o1", "BTC", .buy, 40000, 1, 10⟩

/-- A sell that closes the `demoBuy` position completely. -/
def demoSell : CreateTradeDto := ⟨"t2", "o2", "BTC", .sell, 45000, 1, 20⟩

/-- The store holding exactly the `demoBuy` trade. -/
def demoStore1 : Store := (addTrade emptyStore demoBuy "g1" 100).1

/-- The store after buying one unit and then selling it entirely. -/
def demoStore2 : Store := (addTrade demoStore1 demoSell "g2" 200).1

/-- The persisted form of `demoBuy`. -/
def demoTrade1 : Trade := ⟨"g1", "t1", "o1", "BTC", .buy, 40000, 1, 10, 100⟩

/-- The persisted form of `demoSell`. -/
def demoTrade2 : Trade := ⟨"g2", "t2", "o2", "BTC", .sell, 45000, 1, 20, 200⟩

/-- A one-lot open position used to exercise the query computation. -/
def c7Pos : Position := ⟨"BTC", [⟨1, 40000, "g1"⟩], 1, 40000⟩

/-- An oracle pricing every symbol at 45000. -/
def c7Oracle : Oracle := fun _ => some 45000

/-- Buy one unit of AAA at 100. -/
def c8b1 : CreateTradeDto := ⟨"p1", "o1", "AAA", .buy, 100, 1, 0⟩

/-- Sell that unit at 100.004, realizing 0.004 of P&L. -/
def c8s1 : CreateTradeDto := ⟨"p2", "o2", "AAA", .sell, 100.004, 1, 1⟩

/-- Buy one unit of BBB at 100. -/
def c8b2 : CreateTradeDto := ⟨"p3", "o3", "BBB", .buy, 100, 1, 2⟩

/-- A store whose realized total is 0.004 with an open BBB position. -/
def c8Store : Store :=
  (addTrade (addTrade (addTrade emptyStore c8b1 "k1" 0).1 c8s1 "k2" 1).1 c8b2 "k3" 2).1

/-- An oracle pricing BBB at 100.004, putting the unrealized total at 0.004. -/
def c8Oracle : Oracle := fun s => if s = "BBB" then some 100.004 else none

/-- A buy of 2 units landing on a store already holding 1 unit. -/
def c9Dto : CreateTradeDto := ⟨"t9b", "o9b", "BTC", .buy, 50000, 2, 30⟩

/-- A buy on a second symbol, for the frame-property witness. -/
def c10Dto : CreateTradeDto := ⟨"t8", "o8", "ETH", .buy, 2000, 5, 40⟩

/-! ## Association list lemmas -/

theorem lookupA_setA_self {α : Type} (l : List (String × α)) (k : String) (v : α) :
    lookupA (setA l k v) k = some v := by
  induction l with
  | nil => simp [setA, lookupA]
  | cons e t ih =>
    obtain ⟨a, b⟩ := e
    by_cases h : a = k
    · simp [setA, h, lookupA]
    · simp only [setA, if_neg h, lookupA, if_neg h]
      exact ih

theorem lookupA_setA_ne {α : Type} (l : List (String × α)) {k k' : String} (v : α)
    (h : k' ≠ k) : lookupA (setA l k v) k' = lookupA l k' := by
  induction l with
  | nil => simp only [setA, lookupA, if_neg (fun he : k = k' => h he.symm)]
  | cons e t ih =>
    obtain ⟨a, b⟩ := e
    by_cases ha : a = k
    · simp only [setA, if_pos ha, lookupA]
      rw [if_neg (fun he : k = k' => h he.symm),
        if_neg (fun he : a = k' => h (ha.symm.trans he).symm)]
    · simp only [setA, if_neg ha, lookupA]
      by_cases ha' : a = k'
      · simp [ha']
      · simp only [if_neg ha']
        exact ih

theorem lookupA_mem {α : Type} {l : List (String × α)} {k : String} {v : α}
    (h : lookupA l k = some v) : (k, v) ∈ l := by
  induction l with
  | nil => simp [lookupA] at h
  | cons e t ih =>
    obtain ⟨a, b⟩ := e
    by_cases ha : a = k
    · simp only [lookupA, if_pos ha] at h
      injection h with hbv
      subst hbv
      rw [← ha]
      exact List.mem_cons_self _ _
    · simp only [lookupA, if_neg ha] at h
      exact List.mem_cons_of_mem _ (ih h)

theorem mem_setA {α : Type} {l : List (String × α)} {k : String} {v : α}
    {e : String × α} (h : e ∈ setA l k v) : e = (k, v) ∨ e ∈ l := by
  induction l with
  | nil => simpa [setA] using h
  | cons x t ih =>
    obtain ⟨a, b⟩ := x
    by_cases ha : a = k
    · simp only [setA, if_pos ha, List.mem_cons] at h
      rcases h with h | h
      · exact Or.inl h
      · exact Or.inr (List.mem_cons_of_mem _ h)
    · simp only [setA, if_neg ha, List.mem_cons] at h
      rcases h with h | h
      · exact Or.inr (by simp [h])
      · rcases ih h with h' | h'
        · exact Or.inl h'
        · exact Or.inr (List.mem_cons_of_mem _ h')

theorem mem_setA_keyed {α : Type} {l : List (String × α)}
    (hp : l.Pairwise (fun a b => a.1 ≠ b.1)) {k : String} {v : α}
    {e : String × α} (h : e ∈ setA l k v) : e = (k, v) ∨ (e ∈ l ∧ e.1 ≠ k) := by
  induction l with
  | nil =>
    simp only [setA, List.mem_singleton] at h
    exact Or.inl h
  | cons x t ih =>
    obtain ⟨a, b⟩ := x
    rcases List.pairwise_cons.1 hp with ⟨hx1, hx2⟩
    by_cases ha : a = k
    · simp only [setA, if_pos ha, List.mem_cons] at h
      rcases h with h1 | h1
      · exact Or.inl h1
      · refine Or.inr ⟨List.mem_cons_of_mem _ h1, fun hek => ?_⟩
        exact hx1 e h1 (ha.trans hek.symm)
    · simp only [setA, if_neg ha, List.mem_cons] at h
      rcases h with h1 | h1
      · refine Or.inr ⟨?_, ?_⟩
        · rw [h1]
          exact List.mem_cons_self _ _
        · rw [h1]
          exact ha
      · rcases ih hx2 h1 with h2 | h2
        · exact Or.inl h2
        · exact Or.inr ⟨List.mem_cons_of_mem _ h2.1, h2.2⟩

theorem pairwise_setA {α : Type} {l : List (String × α)}
    (hp : l.Pairwise (fun a b => a.1 ≠ b.1)) (k : String) (v : α) :
    (setA l k v).Pairwise (fun a b => a.1 ≠ b.1) := by
  induction l with
  | nil => simp [setA]
  | cons x t ih =>
    obtain ⟨a, b⟩ := x
    rcases List.pairwise_cons.1 hp with ⟨hx1, hx2⟩
    by_cases ha : a = k
    · simp only [setA, if_pos ha]
      refine List.pairwise_cons.2 ⟨?_, hx2⟩
      intro e he hke
      exact hx1 e he (ha.trans hke)
    · simp only [setA, if_neg ha]
      refine List.pairwise_cons.2 ⟨?_, ih hx2⟩
      intro e he
      rcases mem_setA he with h' | h'
      · rw [h']
        exact ha
      · exact hx1 e h'

theorem lookupA_isSome_setA {α : Type} (l : List (String × α)) (x k : String) (v : α)
    (h : (lookupA l x).isSome) : (lookupA (setA l k v) x).isSome := by
  by_cases hx : x = k
  · rw [hx, lookupA_setA_self]
    rfl
  · rwa [lookupA_setA_ne l v hx]

/-! ## Sum lemmas -/

theorem sumQ_append_single (l : List FifoLot) (lot : FifoLot) :
    sumQ (l ++ [lot]) = sumQ l + lot.quantity := by
  induction l with
  | nil => simp [sumQ]
  | cons x t ih => simp [sumQ, ih]; ring

theorem sumQ_nonneg {l : List FifoLot} (h : ∀ lot ∈ l, 0 < lot.quantity) :
    0 ≤ sumQ l := by
  induction l with
  | nil => simp [sumQ]
  | cons x t ih =>
    have hx := h x (by simp)
    have ht := ih (fun lot hl => h lot (List.mem_cons_of_mem _ hl))
    simp only [sumQ]
    linarith

theorem sumQ_eq_zero {l : List FifoLot} (hpos : ∀ lot ∈ l, 0 < lot.quantity)
    (h : sumQ l = 0) : l = [] := by
  cases l with
  | nil => rfl
  | cons x t =>
    exfalso
    have hx := hpos x (by simp)
    have ht := sumQ_nonneg (fun lot hl => hpos lot (List.mem_cons_of_mem _ hl))
    simp only [sumQ] at h
    linarith

theorem sumPnl_append_single (l : List RealizedPnlRecord) (r : RealizedPnlRecord) :
    sumPnl (l ++ [r]) = sumPnl l + r.pnl := by
  induction l with
  | nil => simp [sumPnl]
  | cons x t ih => simp [sumPnl, ih]; ring

theorem sumRQty_append_single (l : List RealizedPnlRecord) (r : RealizedPnlRecord) :
    sumRQty (l ++ [r]) = sumRQty l + r.quantity := by
  induction l with
  | nil => simp [sumRQty]
  | cons x t ih => simp [sumRQty, ih]; ring

theorem foldl_cost_eq (l : List FifoLot) :
    l.foldl (fun sum lot => sum + lot.quantity * lot.price) 0 = totalCost l := by
  suffices h : ∀ a : ℚ, l.foldl (fun sum lot => sum + lot.quantity * lot.price) a
      = a + totalCost l by
    simpa using h 0
  induction l with
  | nil => intro a; simp [totalCost]
  | cons x t ih =>
    intro a
    simp only [List.foldl_cons, totalCost, ih]
    ring

/-! ## Invariants of the engine state -/

/-- Every lot in a FIFO queue has strictly positive quantity. -/
def lotsPos (queue : List FifoLot) : Prop :=
  ∀ lot ∈ queue, 0 < lot.quantity

/-- The position invariant: the cached total is the exact sum of the lot
quantities, lots are positive, and the cached average entry price is the
weighted average of the current lots (zero when the total is zero). -/
def posInv (p : Position) : Prop :=
  p.totalQuantity = sumQ p.fifoQueue ∧
  lotsPos p.fifoQueue ∧
  (0 < p.totalQuantity → p.averageEntryPrice = totalCost p.fifoQueue / p.totalQuantity) ∧
  (p.totalQuantity = 0 → p.averageEntryPrice = 0)

/-- The aggregate cache invariant for one symbol: the cached rollup equals
the exact sums over that symbol's record log (an absent aggregate reads as
zero, matching an empty log). -/
def aggMatches (store : Store) (sym : String) : Prop :=
  ((lookupA store.aggregates sym).getD ⟨0, 0⟩).totalPnl
      = sumPnl (getPnlRecordsBySymbol store sym) ∧
  ((lookupA store.aggregates sym).getD ⟨0, 0⟩).totalQuantity
      = sumRQty (getPnlRecordsBySymbol store sym)

/-- The whole-store invariant maintained by `addTrade`. -/
def storeInv (store : Store) : Prop :=
  store.positions.Pairwise (fun a b => a.1 ≠ b.1) ∧
  (∀ e ∈ store.positions, e.2.symbol = e.1 ∧ posInv e.2) ∧
  (∀ sym, aggMatches store sym)

/-! ## Effects of savePnlRecord -/

theorem savePnlRecord_frame (store : Store) (r : RealizedPnlRecord) :
    (savePnlRecord store r).trades = store.trades ∧
    (savePnlRecord store r).tradeIdIndex = store.tradeIdIndex ∧
    (savePnlRecord store r).positions = store.positions := by
  simp [savePnlRecord]

theorem savePnlRecord_records_self (store : Store) (r : RealizedPnlRecord) :
    getPnlRecordsBySymbol (savePnlRecord store r) r.symbol
      = getPnlRecordsBySymbol store r.symbol ++ [r] := by
  simp [savePnlRecord, getPnlRecordsBySymbol, lookupA_setA_self]

theorem savePnlRecord_records_ne (store : Store) (r : RealizedPnlRecord)
    {x : String} (h : x ≠ r.symbol) :
    getPnlRecordsBySymbol (savePnlRecord store r) x = getPnlRecordsBySymbol store x := by
  simp [savePnlRecord, getPnlRecordsBySymbol, lookupA_setA_ne _ _ h]

theorem savePnlRecord_agg_self (store : Store) (r : RealizedPnlRecord) :
    (lookupA (savePnlRecord store r).aggregates r.symbol).getD ⟨0, 0⟩
      = ⟨((lookupA store.aggregates r.symbol).getD ⟨0, 0⟩).totalPnl + r.pnl,
         ((lookupA store.aggregates r.symbol).getD ⟨0, 0⟩).totalQuantity + r.quantity⟩ := by
  simp [savePnlRecord, lookupA_setA_self]

theorem savePnlRecord_agg_ne (store : Store) (r : RealizedPnlRecord)
    {x : String} (h : x ≠ r.symbol) :
    lookupA (savePnlRecord store r).aggregates x = lookupA store.aggregates x := by
  simp [savePnlRecord, lookupA_setA_ne _ _ h]

theorem savePnlRecord_agg_isSome (store : Store) (r : RealizedPnlRecord) :
    (lookupA (savePnlRecord store r).aggregates r.symbol).isSome := by
  simp [savePnlRecord, lookupA_setA_self]

theorem savePnlRecord_agg_isSome_mono (store : Store) (r : RealizedPnlRecord)
    (x : String) (h : (lookupA store.aggregates x).isSome) :
    (lookupA (savePnlRecord store r).aggregates x).isSome := by
  simp only [savePnlRecord]
  exact lookupA_isSome_setA _ _ _ _ h

theorem savePnlRecord_aggMatches (store : Store) (r : RealizedPnlRecord)
    (h : ∀ sym, aggMatches store sym) :
    ∀ sym, aggMatches (savePnlRecord store r) sym := by
  intro sym
  by_cases hs : sym = r.symbol
  · subst hs
    unfold aggMatches
    rw [savePnlRecord_records_self, savePnlRecord_agg_self,
      sumPnl_append_single, sumRQty_append_single]
    exact ⟨by rw [(h r.symbol).1], by rw [(h r.symbol).2]⟩
  · unfold aggMatches
    rw [savePnlRecord_records_ne store r hs, savePnlRecord_agg_ne store r hs]
    exact h sym

/-! ## Effects of the FIFO sell loop -/

theorem sellLoop_frame (sym : String) (pr : ℚ) (ts : ℤ) (store : Store)
    (queue : List FifoLot) (rem : ℚ) :
    (sellLoop sym pr ts store queue rem).1.trades = store.trades ∧
    (sellLoop sym pr ts store queue rem).1.tradeIdIndex = store.tradeIdIndex ∧
    (sellLoop sym pr ts store queue rem).1.positions = store.positions := by
  induction queue generalizing store rem with
  | nil => simp [sellLoop]
  | cons lot rest ih =>
    by_cases h0 : 0 < rem
    · by_cases hle : lot.quantity ≤ rem
      · simp only [sellLoop, if_pos h0, if_pos hle]
        rcases ih (savePnlRecord store
          ⟨sym, lot.quantity, lot.price, pr, (pr - lot.price) * lot.quantity, ts⟩)
          (rem - lot.quantity) with ⟨h1, h2, h3⟩
        rcases savePnlRecord_frame store
          ⟨sym, lot.quantity, lot.price, pr, (pr - lot.price) * lot.quantity, ts⟩
          with ⟨g1, g2, g3⟩
        exact ⟨h1.trans g1, h2.trans g2, h3.trans g3⟩
      · simp only [sellLoop, if_pos h0, if_neg hle]
        exact savePnlRecord_frame store _
    · simp [sellLoop, if_neg h0]

theorem sellLoop_other (sym : String) (pr : ℚ) (ts : ℤ) (store : Store)
    (queue : List FifoLot) (rem : ℚ) {x : String} (hx : x ≠ sym) :
    getPnlRecordsBySymbol (sellLoop sym pr ts store queue rem).1 x
      = getPnlRecordsBySymbol store x ∧
    lookupA (sellLoop sym pr ts store queue rem).1.aggregates x
      = lookupA store.aggregates x := by
  induction queue generalizing store rem with
  | nil => simp [sellLoop]
  | cons lot rest ih =>
    by_cases h0 : 0 < rem
    · by_cases hle : lot.quantity ≤ rem
      · simp only [sellLoop, if_pos h0, if_pos hle]
        rcases ih (savePnlRecord store
          ⟨sym, lot.quantity, lot.price, pr, (pr - lot.price) * lot.quantity, ts⟩)
          (rem - lot.quantity) with ⟨h1, h2⟩
        refine ⟨h1.trans ?_, h2.trans ?_⟩
        · exact savePnlRecord_records_ne store _ hx
        · exact savePnlRecord_agg_ne store _ hx
      · simp only [sellLoop, if_pos h0, if_neg hle]
        exact ⟨savePnlRecord_records_ne store _ hx, savePnlRecord_agg_ne store _ hx⟩
    · simp [sellLoop, if_neg h0]

theorem sellLoop_aggMatches (sym : String) (pr : ℚ) (ts : ℤ) (store : Store)
    (queue : List FifoLot) (rem : ℚ) (h : ∀ s, aggMatches store s) :
    ∀ s, aggMatches (sellLoop sym pr ts store queue rem).1 s := by
  induction queue generalizing store rem with
  | nil => simpa [sellLoop] using h
  | cons lot rest ih =>
    by_cases h0 : 0 < rem
    · by_cases hle : lot.quantity ≤ rem
      · simp only [sellLoop, if_pos h0, if_pos hle]
        exact ih _ _ (savePnlRecord_aggMatches store _ h)
      · simp only [sellLoop, if_pos h0, if_neg hle]
        exact savePnlRecord_aggMatches store _ h
    · simpa [sellLoop, if_neg h0] using h

theorem sellLoop_agg_isSome_mono (sym : String) (pr : ℚ) (ts : ℤ) (store : Store)
    (queue : List FifoLot) (rem : ℚ) (x : String)
    (h : (lookupA store.aggregates x).isSome) :
    (lookupA (sellLoop sym pr ts store queue rem).1.aggregates x).isSome := by
  induction queue generalizing store rem with
  | nil => simpa [sellLoop] using h
  | cons lot rest ih =>
    by_cases h0 : 0 < rem
    · by_cases hle : lot.quantity ≤ rem
      · simp only [sellLoop, if_pos h0, if_pos hle]
        exact ih _ _ (savePnlRecord_agg_isSome_mono store _ x h)
      · simp only [sellLoop, if_pos h0, if_neg hle]
        exact savePnlRecord_agg_isSome_mono store _ x h
    · simpa [sellLoop, if_neg h0] using h

theorem sellLoop_agg_present (sym : String) (pr : ℚ) (ts : ℤ) (store : Store)
    (queue : List FifoLot) (rem : ℚ) (h0 : 0 < rem) (hle : rem ≤ sumQ queue)
    (hpos : lotsPos queue) :
    (lookupA (sellLoop sym pr ts store queue rem).1.aggregates sym).isSome := by
  cases queue with
  | nil =>
    exfalso
    simp only [sumQ] at hle
    linarith
  | cons lot rest =>
    by_cases hlq : lot.quantity ≤ rem
    · simp only [sellLoop, if_pos h0, if_pos hlq]
      exact sellLoop_agg_isSome_mono sym pr ts _ rest _ sym
        (savePnlRecord_agg_isSome store _)
    · simp only [sellLoop, if_pos h0, if_neg hlq]
      exact savePnlRecord_agg_isSome store _

theorem sellLoop_queue (sym : String) (pr : ℚ) (ts : ℤ) (store : Store)
    (queue : List FifoLot) (rem : ℚ) (h0 : 0 ≤ rem) (hle : rem ≤ sumQ queue)
    (hpos : lotsPos queue) :
    sumQ (sellLoop sym pr ts store queue rem).2 = sumQ queue - rem ∧
    lotsPos (sellLoop sym pr ts store queue rem).2 := by
  induction queue generalizing store rem with
  | nil =>
    simp only [sumQ] at hle
    have : rem = 0 := le_antisymm hle h0
    simp [sellLoop, this, sumQ, lotsPos]
  | cons lot rest ih =>
    have hlot := hpos lot (List.mem_cons_self _ _)
    have hrest : lotsPos rest := fun l hl => hpos l (List.mem_cons_of_mem _ hl)
    by_cases hrem : 0 < rem
    · by_cases hlq : lot.quantity ≤ rem
      · simp only [sellLoop, if_pos hrem, if_pos hlq]
        have h0' : 0 ≤ rem - lot.quantity := by linarith
        have hle' : rem - lot.quantity ≤ sumQ rest := by
          simp only [sumQ] at hle
          linarith
        rcases ih _ _ h0' hle' hrest with ⟨hq, hp⟩
        constructor
        · rw [hq]
          simp only [sumQ]
          ring
        · exact hp
      · simp only [sellLoop, if_pos hrem, if_neg hlq]
        constructor
        · simp only [sumQ]
          ring
        · intro l hl
          rcases List.mem_cons.1 hl with h | h
          · rw [h]
            simp only []
            linarith [not_le.1 hlq]
          · exact hrest l h
    · have : rem = 0 := le_antisymm (not_lt.1 hrem) h0
      subst this
      simp only [sellLoop, if_neg hrem]
      exact ⟨by ring, hpos⟩

/-! ## Effects of the engine operations -/

theorem saveTrade_frame (store : Store) (trade : Trade) :
    (saveTrade store trade).positions = store.positions ∧
    (saveTrade store trade).pnlRecords = store.pnlRecords ∧
    (saveTrade store trade).aggregates = store.aggregates := by
  simp [saveTrade]

theorem savePosition_frame (store : Store) (p : Position) :
    (savePosition store p).trades = store.trades ∧
    (savePosition store p).tradeIdIndex = store.tradeIdIndex ∧
    (savePosition store p).pnlRecords = store.pnlRecords ∧
    (savePosition store p).aggregates = store.aggregates := by
  simp [savePosition]

theorem handleSell_eq_err {store : Store} {p : Position} {trade : Trade}
    (hguard : p.totalQuantity < trade.quantity) :
    handleSell store p trade = .error .insufficientBalance := by
  simp [handleSell, if_pos hguard]

theorem handleSell_eq_ok {store : Store} {p : Position} {trade : Trade}
    (hguard : ¬p.totalQuantity < trade.quantity) :
    handleSell store p trade = .ok
      ((sellLoop trade.symbol trade.price trade.executionTimestamp store
          p.fifoQueue trade.quantity).1,
        { p with
          fifoQueue := (sellLoop trade.symbol trade.price trade.executionTimestamp store
            p.fifoQueue trade.quantity).2
          totalQuantity := p.totalQuantity - trade.quantity
          averageEntryPrice :=
            if 0 < p.totalQuantity - trade.quantity then
              ((sellLoop trade.symbol trade.price trade.executionTimestamp store
                  p.fifoQueue trade.quantity).2.foldl
                  (fun sum lot => sum + lot.quantity * lot.price) 0)
                / (p.totalQuantity - trade.quantity)
            else 0 }) := by
  simp [handleSell, if_neg hguard]

theorem handleBuy_props (p : Position) (trade : Trade) (hp : posInv p)
    (hq : 0 < trade.quantity) :
    posInv (handleBuy p trade) ∧ (handleBuy p trade).symbol = p.symbol := by
  rcases hp with ⟨h1, h2, h3, h4⟩
  have hsum : 0 ≤ sumQ p.fifoQueue := sumQ_nonneg h2
  have htot : 0 < p.totalQuantity + trade.quantity := by rw [h1]; linarith
  refine ⟨⟨?_, ?_, ?_, ?_⟩, by simp [handleBuy]⟩
  · simp only [handleBuy]
    rw [sumQ_append_single, h1]
  · intro lot hl
    simp only [handleBuy] at hl
    rcases List.mem_append.1 hl with hm | hm
    · exact h2 lot hm
    · rw [List.mem_singleton.1 hm]
      exact hq
  · intro _
    simp only [handleBuy, foldl_cost_eq]
  · intro h0
    exfalso
    simp only [handleBuy] at h0
    linarith

theorem handleSell_pos_posInv {store : Store} {p : Position} {trade : Trade}
    (hp : posInv p) (hq : 0 ≤ trade.quantity)
    (hguard : ¬p.totalQuantity < trade.quantity) :
    posInv { p with
      fifoQueue := (sellLoop trade.symbol trade.price trade.executionTimestamp store
        p.fifoQueue trade.quantity).2
      totalQuantity := p.totalQuantity - trade.quantity
      averageEntryPrice :=
        if 0 < p.totalQuantity - trade.quantity then
          ((sellLoop trade.symbol trade.price trade.executionTimestamp store
              p.fifoQueue trade.quantity).2.foldl
              (fun sum lot => sum + lot.quantity * lot.price) 0)
            / (p.totalQuantity - trade.quantity)
        else 0 } := by
  rcases hp with ⟨h1, h2, h3, h4⟩
  have hle : trade.quantity ≤ sumQ p.fifoQueue := by
    rw [← h1]
    exact not_lt.1 hguard
  rcases sellLoop_queue trade.symbol trade.price trade.executionTimestamp store
    p.fifoQueue trade.quantity hq hle h2 with ⟨hsq, hlp⟩
  refine ⟨?_, ?_, ?_, ?_⟩
  · simp only []
    rw [hsq, h1]
  · exact hlp
  · intro hpos
    simp only [] at hpos ⊢
    rw [if_pos hpos, foldl_cost_eq]
  · intro h0
    simp only [] at h0 ⊢
    rw [if_neg (by rw [h0]; exact lt_irrefl 0)]

theorem updatePosition_ok_props {store : Store} {trade : Trade} (h : storeInv store)
    (hq : 0 < trade.quantity) {st' : Store}
    (hok : updatePosition store trade = .ok st') :
    storeInv st' ∧ st'.trades = store.trades ∧ st'.tradeIdIndex = store.tradeIdIndex := by
  rcases h with ⟨hpw, hent, hagg⟩
  have hpos : posInv ((getPosition store trade.symbol).getD ⟨trade.symbol, [], 0, 0⟩) ∧
      ((getPosition store trade.symbol).getD ⟨trade.symbol, [], 0, 0⟩).symbol
        = trade.symbol := by
    cases hg : getPosition store trade.symbol with
    | none =>
      refine ⟨⟨rfl, ?_, ?_, ?_⟩, rfl⟩
      · intro lot hl
        simp at hl
      · intro hx
        exact absurd hx (by simp)
      · intro _
        rfl
    | some p =>
      have hm := lookupA_mem hg
      rcases hent (trade.symbol, p) hm with ⟨hs, hpi⟩
      exact ⟨hpi, hs⟩
  cases hside : trade.side with
  | buy =>
    simp only [updatePosition, hside] at hok
    rcases handleBuy_props _ trade hpos.1 hq with ⟨hbi, hbs⟩
    injection hok with hok'
    subst hok'
    rcases savePosition_frame store (handleBuy _ trade) with ⟨f1, f2, f3, f4⟩
    refine ⟨⟨?_, ?_, ?_⟩, f1, f2⟩
    · exact pairwise_setA hpw _ _
    · intro e he
      rcases mem_setA he with he' | he'
      · rw [he']
        exact ⟨rfl, hbi⟩
      · exact hent e he'
    · intro sym
      unfold aggMatches getPnlRecordsBySymbol
      rw [f3, f4]
      exact hagg sym
  | sell =>
    by_cases hguard :
        ((getPosition store trade.symbol).getD ⟨trade.symbol, [], 0, 0⟩).totalQuantity
          < trade.quantity
    · simp only [updatePosition, hside, handleSell_eq_err hguard] at hok
      exact Except.noConfusion hok
    · simp only [updatePosition, hside, handleSell_eq_ok hguard] at hok
      injection hok with hok'
      subst hok'
      rcases sellLoop_frame trade.symbol trade.price trade.executionTimestamp store
        ((getPosition store trade.symbol).getD ⟨trade.symbol, [], 0, 0⟩).fifoQueue
        trade.quantity with ⟨s1, s2, s3⟩
      have hnp := @handleSell_pos_posInv store _ _ hpos.1 (le_of_lt hq) hguard
      rcases savePosition_frame _ _ with ⟨f1, f2, f3, f4⟩
      refine ⟨⟨?_, ?_, ?_⟩, by rw [f1, s1], by rw [f2, s2]⟩
      · simp only [savePosition, s3]
        exact pairwise_setA hpw _ _
      · intro e he
        simp only [savePosition, s3] at he
        rcases mem_setA he with he' | he'
        · rw [he']
          exact ⟨rfl, hnp⟩
        · exact hent e he'
      · intro sym
        unfold aggMatches getPnlRecordsBySymbol
        rw [f3, f4]
        have := sellLoop_aggMatches trade.symbol trade.price trade.executionTimestamp
          store ((getPosition store trade.symbol).getD ⟨trade.symbol, [], 0, 0⟩).fifoQueue
          trade.quantity hagg sym
        unfold aggMatches getPnlRecordsBySymbol at this
        exact this

theorem addTrade_storeInv (store : Store) (dto : CreateTradeDto) (genId : String)
    (now : ℤ) (h : storeInv store) (hv : validDto dto) :
    storeInv (addTrade store dto genId now).1 := by
  unfold addTrade
  cases hf : findTradeByTradeId store dto.tradeId with
  | some t => exact h
  | none =>
    have h1 : storeInv (saveTrade store (mkTrade dto genId now)) := h
    cases hu : updatePosition (saveTrade store (mkTrade dto genId now))
        (mkTrade dto genId now) with
    | ok st' =>
      simp only [hu]
      exact (updatePosition_ok_props h1 hv.2 hu).1
    | error e =>
      simp only [hu]
      exact h1

theorem reachable_storeInv {store : Store} (h : Reachable store) : storeInv store := by
  induction h with
  | init =>
    refine ⟨?_, ?_, ?_⟩
    · simp [emptyStore]
    · intro e he
      simp [emptyStore] at he
    · intro sym
      constructor <;> simp [emptyStore, aggMatches, getPnlRecordsBySymbol, lookupA,
        sumPnl, sumRQty]
  | step genId now _ hv ih =>
    exact addTrade_storeInv _ _ genId now ih hv

theorem fetched_props {store : Store} (h : storeInv store) (sym : String) :
    ((getPosition store sym).getD ⟨sym, [], 0, 0⟩).symbol = sym ∧
    posInv ((getPosition store sym).getD ⟨sym, [], 0, 0⟩) := by
  cases hg : getPosition store sym with
  | none =>
    refine ⟨rfl, rfl, ?_, ?_, ?_⟩
    · intro lot hl
      simp at hl
    · intro hx
      exact absurd hx (by simp)
    · intro _
      rfl
  | some p =>
    rcases h.2.1 (sym, p) (lookupA_mem hg) with ⟨hs, hpi⟩
    exact ⟨hs, hpi⟩

theorem updatePosition_ok_frame {store : Store} {trade : Trade} {st' : Store}
    (hok : updatePosition store trade = .ok st') :
    st'.trades = store.trades ∧ st'.tradeIdIndex = store.tradeIdIndex := by
  cases hside : trade.side with
  | buy =>
    simp only [updatePosition, hside] at hok
    injection hok with hok'
    subst hok'
    exact ⟨rfl, rfl⟩
  | sell =>
    by_cases hguard :
        ((getPosition store trade.symbol).getD ⟨trade.symbol, [], 0, 0⟩).totalQuantity
          < trade.quantity
    · simp only [updatePosition, hside, handleSell_eq_err hguard] at hok
      exact Except.noConfusion hok
    · simp only [updatePosition, hside, handleSell_eq_ok hguard] at hok
      injection hok with hok'
      subst hok'
      rcases sellLoop_frame trade.symbol trade.price trade.executionTimestamp store
        ((getPosition store trade.symbol).getD ⟨trade.symbol, [], 0, 0⟩).fifoQueue
        trade.quantity with ⟨s1, s2, s3⟩
      rcases savePosition_frame _ _ with ⟨f1, f2, f3, f4⟩
      exact ⟨f1.trans s1, f2.trans s2⟩

theorem updatePosition_ok_other {store : Store} {trade : Trade} (h : storeInv store)
    {st' : Store} (hok : updatePosition store trade = .ok st') (sym : String)
    (hs : sym ≠ trade.symbol) :
    lookupA st'.positions sym = lookupA store.positions sym ∧
    getPnlRecordsBySymbol st' sym = getPnlRecordsBySymbol store sym ∧
    lookupA st'.aggregates sym = lookupA store.aggregates sym := by
  have hsymbol := (fetched_props h trade.symbol).1
  cases hside : trade.side with
  | buy =>
    simp only [updatePosition, hside] at hok
    injection hok with hok'
    subst hok'
    refine ⟨?_, rfl, rfl⟩
    simp only [savePosition]
    rw [lookupA_setA_ne _ _ (by
      rw [(by simp [handleBuy] :
        (handleBuy ((getPosition store trade.symbol).getD ⟨trade.symbol, [], 0, 0⟩)
          trade).symbol
          = ((getPosition store trade.symbol).getD ⟨trade.symbol, [], 0, 0⟩).symbol),
        hsymbol]
      exact hs)]
  | sell =>
    by_cases hguard :
        ((getPosition store trade.symbol).getD ⟨trade.symbol, [], 0, 0⟩).totalQuantity
          < trade.quantity
    · simp only [updatePosition, hside, handleSell_eq_err hguard] at hok
      exact Except.noConfusion hok
    · simp only [updatePosition, hside, handleSell_eq_ok hguard] at hok
      injection hok with hok'
      subst hok'
      rcases sellLoop_frame trade.symbol trade.price trade.executionTimestamp store
        ((getPosition store trade.symbol).getD ⟨trade.symbol, [], 0, 0⟩).fifoQueue
        trade.quantity with ⟨s1, s2, s3⟩
      rcases sellLoop_other trade.symbol trade.price trade.executionTimestamp store
        ((getPosition store trade.symbol).getD ⟨trade.symbol, [], 0, 0⟩).fifoQueue
        trade.quantity hs with ⟨r1, r2⟩
      refine ⟨?_, ?_, ?_⟩
      · simp only [savePosition]
        rw [lookupA_setA_ne _ _ (by rw [hsymbol]; exact hs), s3]
      · unfold getPnlRecordsBySymbol at r1 ⊢
        simp only [savePosition]
        exact r1
      · simp only [savePosition]
        exact r2

/-! ## Evaluation of the demonstration stores -/

theorem demoStore1_eq : demoStore1 =
    { trades := [demoTrade1]
      tradeIdIndex := [("t1", demoTrade1)]
      positions := [("BTC", ⟨"BTC", [⟨1, 40000, "g1"⟩], 1, 40000⟩)]
      pnlRecords := []
      aggregates := [] } := by
  norm_num +decide [demoStore1, demoBuy, demoTrade1, addTrade, findTradeByTradeId,
    lookupA, emptyStore, mkTrade, saveTrade, setA, updatePosition, getPosition,
    handleBuy, savePosition]

theorem demoStore2_eq : demoStore2 =
    { trades := [demoTrade1, demoTrade2]
      tradeIdIndex := [("t1", demoTrade1), ("t2", demoTrade2)]
      positions := [("BTC", ⟨"BTC", [], 0, 0⟩)]
      pnlRecords := [("BTC", [⟨"BTC", 1, 40000, 45000, 5000, 20⟩])]
      aggregates := [("BTC", ⟨5000, 1⟩)] } := by
  norm_num +decide [demoStore2, demoStore1, demoBuy, demoSell, demoTrade1, demoTrade2,
    addTrade, findTradeByTradeId, lookupA, emptyStore, mkTrade, saveTrade, setA,
    updatePosition, getPosition, handleBuy, handleSell, sellLoop, savePnlRecord,
    savePosition]

theorem demoStore1_reachable : Reachable demoStore1 :=
  @Reachable.step emptyStore demoBuy "g1" 100 Reachable.init
    (by norm_num [validDto, demoBuy])

theorem demoStore2_reachable : Reachable demoStore2 :=
  @Reachable.step demoStore1 demoSell "g2" 200 demoStore1_reachable
    (by norm_num [validDto, demoSell])

/-! ## The claims -/

/-- C1: the claim states that a SELL exceeding the held quantity signals
InsufficientBalance and leaves the entire store unchanged, with no Trade
appended to the log or the idempotency index. Evaluating `addTrade` at the
failing input (a SELL against an empty store) shows the error is signalled
and positions, P&L records and aggregates are untouched, but the Trade HAS
already been appended to the trade log and the idempotency index before
`handleSell` throws — `saveTrade` runs before `updatePosition` in
`portfolio.service.ts:42-43`, contradicting the claim's (and the spec's)
no-persistence requirement. -/
theorem c1_insufficient_sell_persists_trade :
    (addTrade emptyStore c1Dto "g9" 7).2 = .error .insufficientBalance ∧
    (addTrade emptyStore c1Dto "g9" 7).1.positions = emptyStore.positions ∧
    (addTrade emptyStore c1Dto "g9" 7).1.pnlRecords = emptyStore.pnlRecords ∧
    (addTrade emptyStore c1Dto "g9" 7).1.aggregates = emptyStore.aggregates ∧
    (addTrade emptyStore c1Dto "g9" 7).1.trades = [mkTrade c1Dto "g9" 7] ∧
    findTradeByTradeId (addTrade emptyStore c1Dto "g9" 7).1 "t9"
      = some (mkTrade c1Dto "g9" 7) := by
  norm_num +decide [c1Dto, addTrade, findTradeByTradeId, lookupA, emptyStore, mkTrade,
    saveTrade, setA, updatePosition, getPosition, handleBuy, handleSell, sellLoop,
    savePnlRecord, savePosition]

/-- C2: an accepted SELL consumes lots strictly from the head of the FIFO
queue: a fully covered head lot emits one record with the lot's quantity
and pnl `(sellPrice - lotPrice) * lot.quantity` and is removed; a
partially covered head lot emits one record for the remaining quantity and
is decremented in place; and the spec's scenario — buy 2 @ 40000, buy 3 @
42000, sell 4 @ 45000 — yields exactly the two stated records and leaves a
position of 1 unit with average entry price 42000. -/
theorem c2_fifo_consumption :
    (∀ (store : Store) (sym : String) (price : ℚ) (ts : ℤ) (lot : FifoLot)
        (rest : List FifoLot) (rem : ℚ), 0 < rem → lot.quantity ≤ rem →
      sellLoop sym price ts store (lot :: rest) rem =
        sellLoop sym price ts (savePnlRecord store
            ⟨sym, lot.quantity, lot.price, price, (price - lot.price) * lot.quantity, ts⟩)
          rest (rem - lot.quantity)) ∧
    (∀ (store : Store) (sym : String) (price : ℚ) (ts : ℤ) (lot : FifoLot)
        (rest : List FifoLot) (rem : ℚ), 0 < rem → rem < lot.quantity →
      sellLoop sym price ts store (lot :: rest) rem =
        (savePnlRecord store ⟨sym, rem, lot.price, price, (price - lot.price) * rem, ts⟩,
          ⟨lot.quantity - rem, lot.price, lot.tradeId⟩ :: rest)) ∧
    getPnlRecordsBySymbol c2Store "BTC" =
      [⟨"BTC", 2, 40000, 45000, 10000, 12⟩, ⟨"BTC", 2, 42000, 45000, 6000, 12⟩] ∧
    getPosition c2Store "BTC" = some ⟨"BTC", [⟨1, 42000, "g2"⟩], 1, 42000⟩ := by
  refine ⟨?_, ?_, ?_, ?_⟩
  · intro store sym price ts lot rest rem h0 hle
    simp only [sellLoop, if_pos h0, if_pos hle]
  · intro store sym price ts lot rest rem h0 hgt
    simp only [sellLoop, if_pos h0, if_neg (not_le.2 hgt)]
  · norm_num +decide [c2Store, c2b1, c2b2, c2s, addTrade, findTradeByTradeId, lookupA,
      emptyStore, mkTrade, saveTrade, setA, updatePosition, getPosition, handleBuy,
      handleSell, sellLoop, savePnlRecord, savePosition, getPnlRecordsBySymbol]
  · norm_num +decide [c2Store, c2b1, c2b2, c2s, addTrade, findTradeByTradeId, lookupA,
      emptyStore, mkTrade, saveTrade, setA, updatePosition, getPosition, handleBuy,
      handleSell, sellLoop, savePnlRecord, savePosition]

/-- Witness for C2: the two general FIFO steps applied at concrete lots. -/
theorem c2_fifo_consumption_witness :
    sellLoop "X" 10 0 emptyStore [⟨2, 5, "a"⟩] 3 =
      sellLoop "X" 10 0 (savePnlRecord emptyStore ⟨"X", 2, 5, 10, (10 - 5) * 2, 0⟩)
        [] (3 - 2) ∧
    sellLoop "X" 10 0 emptyStore [⟨4, 5, "a"⟩] 3 =
      (savePnlRecord emptyStore ⟨"X", 3, 5, 10, (10 - 5) * 3, 0⟩, [⟨4 - 3, 5, "a"⟩]) := by
  constructor
  · exact c2_fifo_consumption.1 emptyStore "X" 10 0 ⟨2, 5, "a"⟩ [] 3
      (by norm_num) (by norm_num)
  · exact c2_fifo_consumption.2.1 emptyStore "X" 10 0 ⟨4, 5, "a"⟩ [] 3
      (by norm_num) (by norm_num)

/-- C3: in every reachable store, every stored position's cached
`totalQuantity` is the exact sum of its FIFO lot quantities, and its
cached `averageEntryPrice` is the quantity-weighted average of the current
lots when the total is positive, and zero when the total is zero. -/
theorem c3_position_cache_invariant (store : Store) (h : Reachable store)
    (sym : String) (p : Position) (hp : getPosition store sym = some p) :
    p.totalQuantity = sumQ p.fifoQueue ∧
    (0 < p.totalQuantity → p.averageEntryPrice = totalCost p.fifoQueue / p.totalQuantity) ∧
    (p.totalQuantity = 0 → p.averageEntryPrice = 0) := by
  rcases reachable_storeInv h with ⟨hpw, hent, hagg⟩
  rcases hent (sym, p) (lookupA_mem hp) with ⟨hs, hpi⟩
  exact ⟨hpi.1, hpi.2.2.1, hpi.2.2.2⟩

/-- Witness for C3 at the store holding one buy of 1 unit @ 40000. -/
theorem c3_position_cache_invariant_witness :
    (1 : ℚ) = sumQ [⟨1, 40000, "g1"⟩] ∧
    (0 < (1 : ℚ) → (40000 : ℚ) = totalCost [⟨1, 40000, "g1"⟩] / 1) ∧
    ((1 : ℚ) = 0 → (40000 : ℚ) = 0) :=
  c3_position_cache_invariant demoStore1 demoStore1_reachable "BTC"
    ⟨"BTC", [⟨1, 40000, "g1"⟩], 1, 40000⟩
    (by rw [demoStore1_eq]; simp [getPosition, lookupA])

/-- C4: in every reachable store, every symbol's cached aggregate equals
the exact sums of pnl and quantity over that symbol's record log (reading
an absent aggregate as zero against an empty log); and the single store
operation `savePnlRecord` appends the record and adds its pnl and quantity
to the aggregate in one step, so the two can never drift apart. -/
theorem c4_aggregate_cache_invariant :
    (∀ store : Store, Reachable store → ∀ sym : String,
      ((lookupA store.aggregates sym).getD ⟨0, 0⟩).totalPnl
          = sumPnl (getPnlRecordsBySymbol store sym) ∧
      ((lookupA store.aggregates sym).getD ⟨0, 0⟩).totalQuantity
          = sumRQty (getPnlRecordsBySymbol store sym)) ∧
    (∀ (store : Store) (r : RealizedPnlRecord),
      getPnlRecordsBySymbol (savePnlRecord store r) r.symbol
          = getPnlRecordsBySymbol store r.symbol ++ [r] ∧
      (lookupA (savePnlRecord store r).aggregates r.symbol).getD ⟨0, 0⟩
          = ⟨((lookupA store.aggregates r.symbol).getD ⟨0, 0⟩).totalPnl + r.pnl,
             ((lookupA store.aggregates r.symbol).getD ⟨0, 0⟩).totalQuantity
               + r.quantity⟩) := by
  constructor
  · intro store h sym
    exact (reachable_storeInv h).2.2 sym
  · intro store r
    exact ⟨savePnlRecord_records_self store r, savePnlRecord_agg_self store r⟩

/-- Witness for C4 at the store holding one closed round trip. -/
theorem c4_aggregate_cache_invariant_witness :
    ((lookupA demoStore2.aggregates "BTC").getD ⟨0, 0⟩).totalPnl
        = sumPnl (getPnlRecordsBySymbol demoStore2 "BTC") ∧
    ((lookupA demoStore2.aggregates "BTC").getD ⟨0, 0⟩).totalQuantity
        = sumRQty (getPnlRecordsBySymbol demoStore2 "BTC") :=
  c4_aggregate_cache_invariant.1 demoStore2 demoStore2_reachable "BTC"

/-- C5: `addTrade` is idempotent on the external trade id: when the store
already holds a trade under the input's external id, the call returns that
stored trade and the store value is unchanged (every collection identical);
and a successful fresh call indexes exactly its returned trade under the
input's external id, so the retried call returns the first call's trade
with the same internal id. -/
theorem c5_idempotent_record :
    (∀ (store : Store) (dto : CreateTradeDto) (genId : String) (now : ℤ) (t : Trade),
      findTradeByTradeId store dto.tradeId = some t →
      addTrade store dto genId now = (store, Except.ok t)) ∧
    (∀ (store : Store) (dto : CreateTradeDto) (genId : String) (now : ℤ) (t : Trade),
      findTradeByTradeId store dto.tradeId = none →
      (addTrade store dto genId now).2 = Except.ok t →
      findTradeByTradeId (addTrade store dto genId now).1 dto.tradeId = some t) := by
  constructor
  · intro store dto genId now t h
    simp [addTrade, h]
  · intro store dto genId now t h hok
    simp only [addTrade, h] at hok ⊢
    cases hu : updatePosition (saveTrade store (mkTrade dto genId now))
        (mkTrade dto genId now) with
    | ok st' =>
      simp only [hu] at hok ⊢
      injection hok with hok'
      subst hok'
      unfold findTradeByTradeId
      rw [(updatePosition_ok_frame hu).2]
      show lookupA (setA store.tradeIdIndex dto.tradeId (mkTrade dto genId now))
        dto.tradeId = _
      rw [lookupA_setA_self]
    | error e =>
      simp only [hu] at hok
      exact Except.noConfusion hok

/-- Witness for C5: resubmitting external id t1 with different fields
returns the originally stored trade and the identical store. -/
theorem c5_idempotent_record_witness :
    addTrade demoStore1 ⟨"t1", "oX", "BTC", .buy, 99, 7, 3⟩ "g9" 9
      = (demoStore1, Except.ok demoTrade1) :=
  c5_idempotent_record.1 demoStore1 ⟨"t1", "oX", "BTC", .buy, 99, 7, 3⟩ "g9" 9 demoTrade1
    (by rw [demoStore1_eq]; simp [findTradeByTradeId, lookupA])

/-- Counterexample to C6: after buying 1 unit and selling it entirely,
the Position is NOT absent from the store — `getPosition` returns a
zero-quantity record and `getAllPositions` still lists it.
`updatePosition` always calls `savePosition` and the storage method
`deletePosition` is never invoked (`portfolio.service.ts:70`). -/
theorem c6_zero_position_not_deleted :
    getPosition demoStore2 "BTC" = some ⟨"BTC", [], 0, 0⟩ ∧
    getAllPositions demoStore2 = [⟨"BTC", [], 0, 0⟩] := by
  rw [demoStore2_eq]
  simp [getPosition, lookupA, getAllPositions]

/-- C6 amended: after an accepted SELL that brings a symbol's total to
exactly zero, the Position stays in the store as a zero-quantity record
with an empty FIFO queue and average entry price zero (it is not deleted);
the query layer omits it — `getPortfolio` reports no entry for the symbol
because it filters on `totalQuantity > 0` — while the symbol's
RealizedPnlAggregate is present and queryable. -/
theorem c6_amended_zero_position_retained (store : Store) (h : Reachable store)
    (dto : CreateTradeDto) (genId : String) (now : ℤ) (oracle : Oracle)
    (hv : validDto dto) (hside : dto.side = TradeSide.sell)
    (hnew : findTradeByTradeId store dto.tradeId = none)
    (p : Position) (hp : getPosition store dto.symbol = some p)
    (hq : dto.quantity = p.totalQuantity) :
    getPosition (addTrade store dto genId now).1 dto.symbol
      = some ⟨dto.symbol, [], 0, 0⟩ ∧
    (lookupA (addTrade store dto genId now).1.aggregates dto.symbol).isSome = true ∧
    ((getPortfolio (addTrade store dto genId now).1 oracle none).positions.filter
      (fun e => e.symbol == dto.symbol)) = [] := by
  rcases reachable_storeInv h with ⟨hpw, hent, hagg⟩
  rcases hent (dto.symbol, p) (lookupA_mem hp) with ⟨hsym, hpi⟩
  have htq : (mkTrade dto genId now).quantity = p.totalQuantity := hq
  have hguard : ¬p.totalQuantity < (mkTrade dto genId now).quantity := by
    rw [htq]
    exact lt_irrefl _
  have hp1 : getPosition (saveTrade store (mkTrade dto genId now))
      (mkTrade dto genId now).symbol = some p := hp
  have hupd : updatePosition (saveTrade store (mkTrade dto genId now))
      (mkTrade dto genId now) = .ok
      (savePosition
        (sellLoop (mkTrade dto genId now).symbol (mkTrade dto genId now).price
          (mkTrade dto genId now).executionTimestamp
          (saveTrade store (mkTrade dto genId now)) p.fifoQueue
          (mkTrade dto genId now).quantity).1
        { p with
          fifoQueue := (sellLoop (mkTrade dto genId now).symbol
            (mkTrade dto genId now).price (mkTrade dto genId now).executionTimestamp
            (saveTrade store (mkTrade dto genId now)) p.fifoQueue
            (mkTrade dto genId now).quantity).2
          totalQuantity := p.totalQuantity - (mkTrade dto genId now).quantity
          averageEntryPrice :=
            if 0 < p.totalQuantity - (mkTrade dto genId now).quantity then
              ((sellLoop (mkTrade dto genId now).symbol (mkTrade dto genId now).price
                  (mkTrade dto genId now).executionTimestamp
                  (saveTrade store (mkTrade dto genId now)) p.fifoQueue
                  (mkTrade dto genId now).quantity).2.foldl
                  (fun sum lot => sum + lot.quantity * lot.price) 0)
                / (p.totalQuantity - (mkTrade dto genId now).quantity)
            else 0 }) := by
    have hside' : (mkTrade dto genId now).side = TradeSide.sell := hside
    simp only [updatePosition, hside']
    rw [hp1]
    simp only [Option.getD_some]
    rw [handleSell_eq_ok hguard]
  have key : (addTrade store dto genId now).1
      = savePosition
        (sellLoop (mkTrade dto genId now).symbol (mkTrade dto genId now).price
          (mkTrade dto genId now).executionTimestamp
          (saveTrade store (mkTrade dto genId now)) p.fifoQueue
          (mkTrade dto genId now).quantity).1
        { p with
          fifoQueue := (sellLoop (mkTrade dto genId now).symbol
            (mkTrade dto genId now).price (mkTrade dto genId now).executionTimestamp
            (saveTrade store (mkTrade dto genId now)) p.fifoQueue
            (mkTrade dto genId now).quantity).2
          totalQuantity := p.totalQuantity - (mkTrade dto genId now).quantity
          averageEntryPrice :=
            if 0 < p.totalQuantity - (mkTrade dto genId now).quantity then
              ((sellLoop (mkTrade dto genId now).symbol (mkTrade dto genId now).price
                  (mkTrade dto genId now).executionTimestamp
                  (saveTrade store (mkTrade dto genId now)) p.fifoQueue
                  (mkTrade dto genId now).quantity).2.foldl
                  (fun sum lot => sum + lot.quantity * lot.price) 0)
                / (p.totalQuantity - (mkTrade dto genId now).quantity)
            else 0 } := by
    simp only [addTrade, hnew, hupd]
  have hq0 : (0 : ℚ) ≤ (mkTrade dto genId now).quantity := le_of_lt hv.2
  have hle : (mkTrade dto genId now).quantity ≤ sumQ p.fifoQueue := by
    rw [htq, hpi.1]
  rcases sellLoop_queue (mkTrade dto genId now).symbol (mkTrade dto genId now).price
    (mkTrade dto genId now).executionTimestamp (saveTrade store (mkTrade dto genId now))
    p.fifoQueue (mkTrade dto genId now).quantity hq0 hle hpi.2.1 with ⟨hsq, hlp⟩
  have hempty : (sellLoop (mkTrade dto genId now).symbol (mkTrade dto genId now).price
      (mkTrade dto genId now).executionTimestamp
      (saveTrade store (mkTrade dto genId now)) p.fifoQueue
      (mkTrade dto genId now).quantity).2 = [] := by
    refine sumQ_eq_zero hlp ?_
    rw [hsq, htq, hpi.1]
    ring
  have htot0 : p.totalQuantity - (mkTrade dto genId now).quantity = 0 := by
    rw [htq]
    ring
  have hnewpos : ({ p with
      fifoQueue := (sellLoop (mkTrade dto genId now).symbol
        (mkTrade dto genId now).price (mkTrade dto genId now).executionTimestamp
        (saveTrade store (mkTrade dto genId now)) p.fifoQueue
        (mkTrade dto genId now).quantity).2
      totalQuantity := p.totalQuantity - (mkTrade dto genId now).quantity
      averageEntryPrice :=
        if 0 < p.totalQuantity - (mkTrade dto genId now).quantity then
          ((sellLoop (mkTrade dto genId now).symbol (mkTrade dto genId now).price
              (mkTrade dto genId now).executionTimestamp
              (saveTrade store (mkTrade dto genId now)) p.fifoQueue
              (mkTrade dto genId now).quantity).2.foldl
              (fun sum lot => sum + lot.quantity * lot.price) 0)
            / (p.totalQuantity - (mkTrade dto genId now).quantity)
        else 0 } : Position) = ⟨dto.symbol, [], 0, 0⟩ := by
    rw [Position.mk.injEq] at *
    refine ⟨hsym, hempty, htot0, ?_⟩
    rw [htot0, if_neg (lt_irrefl 0)]
  rw [key, hnewpos]
  have hagg1 : (lookupA (savePosition
      (sellLoop (mkTrade dto genId now).symbol (mkTrade dto genId now).price
        (mkTrade dto genId now).executionTimestamp
        (saveTrade store (mkTrade dto genId now)) p.fifoQueue
        (mkTrade dto genId now).quantity).1
      (⟨dto.symbol, [], 0, 0⟩ : Position)).aggregates dto.symbol).isSome = true := by
    simp only [savePosition]
    exact sellLoop_agg_present (mkTrade dto genId now).symbol (mkTrade dto genId now).price
      (mkTrade dto genId now).executionTimestamp (saveTrade store (mkTrade dto genId now))
      p.fifoQueue (mkTrade dto genId now).quantity hv.2 hle hpi.2.1
  refine ⟨?_, hagg1, ?_⟩
  · simp only [savePosition, getPosition]
    exact lookupA_setA_self _ _ _
  · rw [List.filter_eq_nil_iff]
    intro e he
    simp only [getPortfolio, openPositions, applyFilter, List.mem_map] at he
    rcases he with ⟨pos, hposmem, rfl⟩
    rcases List.mem_filter.1 hposmem with ⟨hmem, hqpos⟩
    have hqpos' : (0 : ℚ) < pos.totalQuantity := of_decide_eq_true hqpos
    simp only [getAllPositions, List.mem_map] at hmem
    rcases hmem with ⟨pe, hpe, rfl⟩
    have hpe' : pe ∈ setA store.positions dto.symbol (⟨dto.symbol, [], 0, 0⟩ : Position) := by
      have hframe := (sellLoop_frame (mkTrade dto genId now).symbol
        (mkTrade dto genId now).price (mkTrade dto genId now).executionTimestamp
        (saveTrade store (mkTrade dto genId now)) p.fifoQueue
        (mkTrade dto genId now).quantity).2.2
      simpa only [savePosition, hframe] using hpe
    rcases mem_setA_keyed hpw hpe' with hc | hc
    · exfalso
      rw [hc] at hqpos'
      exact lt_irrefl 0 hqpos'
    · rcases hent pe hc.1 with ⟨hpsym, _⟩
      simp only [positionEntryDto, positionEntry, beq_iff_eq]
      rw [hpsym]
      simpa using hc.2

/-- Witness for the amended C6 on the one-unit round trip. -/
theorem c6_amended_zero_position_retained_witness :
    getPosition (addTrade demoStore1 demoSell "g2" 200).1 "BTC"
      = some ⟨"BTC", [], 0, 0⟩ ∧
    (lookupA (addTrade demoStore1 demoSell "g2" 200).1.aggregates "BTC").isSome
      = true := by
  have h := c6_amended_zero_position_retained demoStore1 demoStore1_reachable demoSell
    "g2" 200 (fun _ => none) (by norm_num [validDto, demoSell]) rfl
    (by rw [demoStore1_eq]; simp +decide [demoSell, findTradeByTradeId, lookupA])
    ⟨"BTC", [⟨1, 40000, "g1"⟩], 1, 40000⟩
    (by rw [demoStore1_eq]; simp +decide [demoSell, getPosition, lookupA])
    (by norm_num [demoSell])
  exact ⟨h.1, h.2.1⟩

/-- C7: for every position the query engine reports, when the oracle (all
of whose reachable states hold only positive prices) has a price for the
symbol, the computed `currentPrice` is that price; when it has no entry,
`currentPrice` falls back to the position's average entry price and the
unrealized P&L is exactly zero; and in every case
`currentValue = currentPrice * totalQuantity` and
`unrealizedPnl = (currentPrice - averageEntryPrice) * totalQuantity`;
`getPortfolio` reports exactly the positions with positive total, each
through this computation (serialized at 8 decimal places). -/
theorem c7_price_fallback (store : Store) (oracle : Oracle) (ho : OracleOk oracle)
    (pos : Position) :
    (∀ pr : ℚ, oracle pos.symbol = some pr →
      (positionEntry oracle pos).currentPrice = pr) ∧
    (oracle pos.symbol = none →
      (positionEntry oracle pos).currentPrice = pos.averageEntryPrice ∧
      (positionEntry oracle pos).unrealizedPnl = 0) ∧
    (positionEntry oracle pos).currentValue
        = (positionEntry oracle pos).currentPrice * pos.totalQuantity ∧
    (positionEntry oracle pos).unrealizedPnl
        = ((positionEntry oracle pos).currentPrice - pos.averageEntryPrice)
            * pos.totalQuantity ∧
    (getPortfolio store oracle none).positions
        = ((getAllPositions store).filter
            (fun q => decide (0 < q.totalQuantity))).map (positionEntryDto oracle) := by
  refine ⟨?_, ?_, rfl, rfl, rfl⟩
  · intro pr hpr
    have hne : pr ≠ 0 := ne_of_gt (ho pos.symbol pr hpr)
    simp [positionEntry, currentPriceOf, hpr, hne]
  · intro hn
    constructor
    · simp [positionEntry, currentPriceOf, hn]
    · simp [positionEntry, currentPriceOf, hn]

/-- Witness for C7: an everywhere-45000 oracle against a one-lot
position bought at 40000. -/
theorem c7_price_fallback_witness :
    (positionEntry c7Oracle c7Pos).currentPrice = 45000 ∧
    (positionEntry c7Oracle c7Pos).currentValue
        = (positionEntry c7Oracle c7Pos).currentPrice * c7Pos.totalQuantity ∧
    (positionEntry c7Oracle c7Pos).unrealizedPnl
        = ((positionEntry c7Oracle c7Pos).currentPrice - c7Pos.averageEntryPrice)
            * c7Pos.totalQuantity := by
  have h := c7_price_fallback emptyStore c7Oracle
    (by
      intro s pr hp
      simp only [c7Oracle] at hp
      injection hp with hp'
      rw [← hp']
      norm_num)
    c7Pos
  exact ⟨h.1 45000 rfl, h.2.2.1, h.2.2.2.1⟩

/-- Counterexample to C8: with realized total 0.004 and unrealized total
0.004, the code's `netPnl` is `round2(0.008) = 0.01`, while the claim's
rounding order gives `round2(0.004) + round2(0.004) = 0`. The source
computes `netPnl` from the unrounded totals
(`portfolio-query.service.ts:102`). -/
theorem c8_netpnl_rounding_order_counterexample :
    (getPnl c8Store c8Oracle none).netPnl ≠
      (getPnl c8Store c8Oracle none).totalRealizedPnl
        + (getPnl c8Store c8Oracle none).totalUnrealizedPnl := by
  norm_num +decide [c8Store, c8b1, c8s1, c8b2, c8Oracle, addTrade, findTradeByTradeId,
    lookupA, emptyStore, mkTrade, saveTrade, setA, updatePosition, getPosition, handleBuy,
    handleSell, sellLoop, savePnlRecord, savePosition, getPnl, realizedEntries,
    unrealizedEntries, realizedTotal, unrealizedTotal, openPositions, applyFilter,
    getAllPositions, currentPriceOf, toNumber8, roundDp, roundAway, getPnlRecordsBySymbol]

/-- C8 amended: in every `getPnl` result, `netPnl` is the single rounding
to 2 decimal places of the sum of the two unrounded totals, while the
reported `totalRealizedPnl` and `totalUnrealizedPnl` fields are each
rounded independently; `netPnl` is therefore not in general equal to the
sum of the two reported (pre-rounded) figures. -/
theorem c8_amended_netpnl_rounds_sum (store : Store) (oracle : Oracle)
    (filt : Option (List String)) :
    (getPnl store oracle filt).netPnl
        = roundDp 2 (realizedTotal store filt + unrealizedTotal store oracle filt) ∧
    (getPnl store oracle filt).totalRealizedPnl
        = roundDp 2 (realizedTotal store filt) ∧
    (getPnl store oracle filt).totalUnrealizedPnl
        = roundDp 2 (unrealizedTotal store oracle filt) :=
  ⟨rfl, rfl, rfl⟩

/-- C9: on every reachable store and validated input, every divisor the
engine's two division sites evaluate during `addTrade` is nonzero: the buy
site divides by the new total (positive because the stored total is a sum
of positive lots and the bought quantity is positive), and the sell site
divides only under its `totalQuantity > 0` guard. -/
theorem c9_no_division_by_zero (store : Store) (h : Reachable store)
    (dto : CreateTradeDto) (genId : String) (now : ℤ) (hv : validDto dto) :
    ∀ d ∈ recordTradeDivisors store dto genId now, d ≠ 0 := by
  intro d hd
  have hinv := reachable_storeInv h
  have hps := fetched_props hinv dto.symbol
  have h0 : 0 ≤ ((getPosition store dto.symbol).getD
      ⟨dto.symbol, [], 0, 0⟩).totalQuantity := by
    rcases hps.2 with ⟨h1, h2, _, _⟩
    rw [h1]
    exact sumQ_nonneg h2
  cases hf : findTradeByTradeId store dto.tradeId with
  | some t =>
    simp only [recordTradeDivisors, hf] at hd
    simp at hd
  | none =>
    cases hside : dto.side with
    | buy =>
      simp only [recordTradeDivisors, hf, hside, buyDivisors, List.mem_singleton] at hd
      subst hd
      have := hv.2
      intro hzero
      simp only [mkTrade] at hzero
      linarith
    | sell =>
      simp only [recordTradeDivisors, hf, hside, mkTrade] at hd
      by_cases hguard : ((getPosition store dto.symbol).getD
          ⟨dto.symbol, [], 0, 0⟩).totalQuantity < dto.quantity
      · rw [if_pos hguard] at hd
        simp at hd
      · rw [if_neg hguard] at hd
        simp only [sellDivisors] at hd
        by_cases hrem : 0 < ((getPosition store dto.symbol).getD
            ⟨dto.symbol, [], 0, 0⟩).totalQuantity - dto.quantity
        · rw [if_pos hrem] at hd
          simp only [List.mem_singleton] at hd
          subst hd
          exact ne_of_gt hrem
        · rw [if_neg hrem] at hd
          simp at hd

/-- Witness for C9: a buy of 2 units on a store already holding 1 unit
evaluates exactly one divisor, 3, which is nonzero. -/
theorem c9_no_division_by_zero_witness :
    (3 : ℚ) ∈ recordTradeDivisors demoStore1 c9Dto "g9" 9 ∧ (3 : ℚ) ≠ 0 := by
  have hmem : (3 : ℚ) ∈ recordTradeDivisors demoStore1 c9Dto "g9" 9 := by
    rw [show recordTradeDivisors demoStore1 c9Dto "g9" 9 = [3] by
      rw [demoStore1_eq]
      norm_num +decide [recordTradeDivisors, findTradeByTradeId, lookupA, getPosition,
        buyDivisors, mkTrade, c9Dto]]
    simp
  exact ⟨hmem, c9_no_division_by_zero demoStore1 demoStore1_reachable c9Dto "g9" 9
    (by norm_num [validDto, c9Dto]) 3 hmem⟩

/-- C10: per-symbol isolation. On every reachable store, a fresh `addTrade`
call that succeeds for a trade on symbol S grows the trade log by exactly
the one returned trade, and leaves the position, the realized P&L record
log and the aggregate of every other symbol unchanged. -/
theorem c10_frame_property (store : Store) (h : Reachable store)
    (dto : CreateTradeDto) (genId : String) (now : ℤ) (t : Trade)
    (hnew : findTradeByTradeId store dto.tradeId = none)
    (hok : (addTrade store dto genId now).2 = Except.ok t) :
    (addTrade store dto genId now).1.trades = store.trades ++ [t] ∧
    ∀ sym : String, sym ≠ dto.symbol →
      lookupA (addTrade store dto genId now).1.positions sym
          = lookupA store.positions sym ∧
      getPnlRecordsBySymbol (addTrade store dto genId now).1 sym
          = getPnlRecordsBySymbol store sym ∧
      lookupA (addTrade store dto genId now).1.aggregates sym
          = lookupA store.aggregates sym := by
  have hinv0 := reachable_storeInv h
  have hinv1 : storeInv (saveTrade store (mkTrade dto genId now)) := hinv0
  simp only [addTrade, hnew] at hok ⊢
  cases hu : updatePosition (saveTrade store (mkTrade dto genId now))
      (mkTrade dto genId now) with
  | error e =>
    simp only [hu] at hok
    exact Except.noConfusion hok
  | ok st' =>
    simp only [hu] at hok ⊢
    injection hok with hok'
    subst hok'
    constructor
    · rw [(updatePosition_ok_frame hu).1]
      rfl
    · intro sym hs
      exact updatePosition_ok_other hinv1 hu sym hs

/-- Witness for C10: a fresh ETH buy on the BTC-holding store leaves BTC's
position, record log and aggregate untouched and appends one trade. -/
theorem c10_frame_property_witness :
    (addTrade demoStore1 c10Dto "g8" 8).1.trades
        = demoStore1.trades ++ [mkTrade c10Dto "g8" 8] ∧
    lookupA (addTrade demoStore1 c10Dto "g8" 8).1.positions "BTC"
        = lookupA demoStore1.positions "BTC" ∧
    getPnlRecordsBySymbol (addTrade demoStore1 c10Dto "g8" 8).1 "BTC"
        = getPnlRecordsBySymbol demoStore1 "BTC" ∧
    lookupA (addTrade demoStore1 c10Dto "g8" 8).1.aggregates "BTC"
        = lookupA demoStore1.aggregates "BTC" := by
  have h := c10_frame_property demoStore1 demoStore1_reachable c10Dto "g8" 8
    (mkTrade c10Dto "g8" 8)
    (by rw [demoStore1_eq]; simp +decide [c10Dto, findTradeByTradeId, lookupA])
    (by
      rw [demoStore1_eq]
      norm_num +decide [c10Dto, addTrade, findTradeByTradeId, lookupA, mkTrade,
        saveTrade, setA, updatePosition, getPosition, handleBuy, savePosition])
  exact ⟨h.1, (h.2 "BTC" (by simp +decide [c10Dto])).1,
    (h.2 "BTC" (by simp +decide [c10Dto])).2.1,
    (h.2 "BTC" (by simp +decide [c10Dto])).2.2⟩

end Portfolio
